import Mathlib

/-!
# The publish/subscribe dispatcher of `src/chat/pubsub.go`

A shallow embedding of the dispatcher: the handler registry `ps.f`, `Sub`, `Leave`, `Close`
and the body of the worker loop started by `New`, together with the part of Go's `reflect`
package the code calls (`ValueOf`, `Kind`, `Type`, `NumIn`, `In`, `Pointer`, `Call`).

Go values are `interface{}` values: `nil`, or a dynamic type with contents.  A run-time panic
is an explicit `Except.error`.  What a handler does when it is called is an oracle `call`,
one outcome for each goroutine the worker launches, universally quantified in the theorems.
-/

namespace Chat

/-! ## Go types and values -/

/-- The `reflect.Kind` of a value; `Invalid` is the kind of the zero `reflect.Value`. -/
inductive Kind where
  | Invalid | Bool | Int | Int8 | Int16 | Int32 | Int64
  | Uint | Uint8 | Uint16 | Uint32 | Uint64 | Uintptr
  | Float32 | Float64 | Complex64 | Complex128
  | Array | Chan | Func | Interface | Map | Ptr | Slice | String | Struct | UnsafePointer
  deriving DecidableEq, Repr

/-- The kinds of the types that `GoType` gives by name only. -/
inductive OtherKind where
  | Int8 | Int16 | Int64 | Uint | Uint8 | Uint16 | Uint32 | Uint64 | Uintptr
  | Float32 | Float64 | Complex64 | Complex128
  | Array | Chan | Map | Struct | UnsafePointer
  deriving DecidableEq, Repr

/-- Go's types.  `named` is a defined type (`type MyInt int`), distinct from its
underlying type; `iface` is an interface type, `other` any type of the remaining kinds,
both identified by their name.  Only `func` types have parameters. -/
inductive GoType where
  | bool
  | int
  | int32
  | string
  | ptr (elem : GoType)
  | slice (elem : GoType)
  | iface (name : String)
  | other (k : OtherKind) (name : String)
  | named (name : String) (underlying : GoType)
  | func (ins outs : List GoType) (variadic : Bool)

mutual
/-- Identity of two type descriptors (the `==` of two `reflect.Type`s). -/
def GoType.beq : GoType → GoType → Bool
  | .bool, .bool => true
  | .int, .int => true
  | .int32, .int32 => true
  | .string, .string => true
  | .ptr a, .ptr b => GoType.beq a b
  | .slice a, .slice b => GoType.beq a b
  | .iface n, .iface m => n == m
  | .other k n, .other l m => k == l && n == m
  | .named n a, .named m b => n == m && GoType.beq a b
  | .func i o v, .func j p w => GoType.beqList i j && GoType.beqList o p && v == w
  | _, _ => false
/-- Pointwise identity of two lists of type descriptors. -/
def GoType.beqList : List GoType → List GoType → Bool
  | [], [] => true
  | a :: as, b :: bs => GoType.beq a b && GoType.beqList as bs
  | _, _ => false
end

mutual
theorem GoType.eq_of_beq : ∀ a b : GoType, GoType.beq a b = true → a = b
  | .bool, b, h => by cases b <;> simp_all [GoType.beq]
  | .int, b, h => by cases b <;> simp_all [GoType.beq]
  | .int32, b, h => by cases b <;> simp_all [GoType.beq]
  | .string, b, h => by cases b <;> simp_all [GoType.beq]
  | .iface n, b, h => by cases b <;> simp_all [GoType.beq]
  | .other k n, b, h => by cases b <;> simp_all [GoType.beq]
  | .ptr a, b, h => by
    cases b <;> simp [GoType.beq] at h
    rw [GoType.eq_of_beq _ _ h]
  | .slice a, b, h => by
    cases b <;> simp [GoType.beq] at h
    rw [GoType.eq_of_beq _ _ h]
  | .named n a, b, h => by
    cases b <;> simp [GoType.beq] at h
    rw [h.1, GoType.eq_of_beq _ _ h.2]
  | .func i o v, b, h => by
    cases b <;> simp [GoType.beq] at h
    rw [GoType.eq_of_beqList _ _ h.1.1, GoType.eq_of_beqList _ _ h.1.2, h.2]
theorem GoType.eq_of_beqList : ∀ a b : List GoType, GoType.beqList a b = true → a = b
  | [], b, h => by cases b <;> simp_all [GoType.beqList]
  | a :: as, b, h => by
    cases b <;> simp [GoType.beqList] at h
    rw [GoType.eq_of_beq _ _ h.1, GoType.eq_of_beqList _ _ h.2]
end

mutual
theorem GoType.beq_self : ∀ a : GoType, GoType.beq a a = true
  | .bool => rfl
  | .int => rfl
  | .int32 => rfl
  | .string => rfl
  | .iface n => by simp [GoType.beq]
  | .other k n => by simp [GoType.beq]
  | .ptr a => by simpa [GoType.beq] using GoType.beq_self a
  | .slice a => by simpa [GoType.beq] using GoType.beq_self a
  | .named n a => by simpa [GoType.beq] using GoType.beq_self a
  | .func i o v => by simp [GoType.beq, GoType.beqList_self i, GoType.beqList_self o]
theorem GoType.beqList_self : ∀ a : List GoType, GoType.beqList a a = true
  | [] => rfl
  | a :: as => by simp [GoType.beqList, GoType.beq_self a, GoType.beqList_self as]
end

theorem GoType.beq_iff (a b : GoType) : GoType.beq a b = true ↔ a = b :=
  ⟨GoType.eq_of_beq a b, fun h => h ▸ GoType.beq_self a⟩

instance : DecidableEq GoType := fun a b =>
  decidable_of_iff (GoType.beq a b = true) (GoType.beq_iff a b)

/-- The contents of a non-nil interface value.  `code` is a func value: the entry point of
its code and its closure context (two closures of one function literal share the entry).
Contents that do not fit the dynamic type are not excluded; the theorems hold for them too. -/
inductive Data where
  | int (n : Int)
  | str (s : String)
  | bool (b : Bool)
  | addr (p : Nat)
  | code (entry env : Nat)
  deriving DecidableEq

/-- A Go `interface{}` value: `nil`, or a dynamic type with contents. -/
inductive Iface where
  | nil
  | val (t : GoType) (d : Data)
  deriving DecidableEq

/-- A run-time panic of the `reflect` package or of a slice expression. -/
inductive Panic where
  | typeOnZeroValue
  | numInOfNonFunc
  | inOfNonFunc
  | inIndexOutOfRange
  | pointerOnWrongKind
  | sliceBoundsOutOfRange
  deriving DecidableEq, Repr

deriving instance DecidableEq for Except

/-! ## The part of `reflect` the dispatcher uses -/

/-- A `reflect.Value`; the zero Value is `Iface.nil`. -/
abbrev Value := Iface

/-- Model of `reflect.ValueOf`: `ValueOf(nil)` is the zero Value. -/
def ValueOf (i : Iface) : Value := i

/-- The `reflect.Kind` an `OtherKind` stands for. -/
def OtherKind.toKind : OtherKind → Kind
  | .Int8 => Kind.Int8
  | .Int16 => Kind.Int16
  | .Int64 => Kind.Int64
  | .Uint => Kind.Uint
  | .Uint8 => Kind.Uint8
  | .Uint16 => Kind.Uint16
  | .Uint32 => Kind.Uint32
  | .Uint64 => Kind.Uint64
  | .Uintptr => Kind.Uintptr
  | .Float32 => Kind.Float32
  | .Float64 => Kind.Float64
  | .Complex64 => Kind.Complex64
  | .Complex128 => Kind.Complex128
  | .Array => Kind.Array
  | .Chan => Kind.Chan
  | .Map => Kind.Map
  | .Struct => Kind.Struct
  | .UnsafePointer => Kind.UnsafePointer

/-- Model of `reflect.Type.Kind`: a defined type has the kind of its underlying type. -/
def GoType.kind : GoType → Kind
  | .bool => Kind.Bool
  | .int => Kind.Int
  | .int32 => Kind.Int32
  | .string => Kind.String
  | .ptr _ => Kind.Ptr
  | .slice _ => Kind.Slice
  | .iface _ => Kind.Interface
  | .other k _ => k.toKind
  | .named _ u => u.kind
  | .func _ _ _ => Kind.Func

/-- Model of `reflect.Value.Kind`: `Invalid` for the zero Value, it never panics. -/
def Value.Kind : Value → Kind
  | .nil => Kind.Invalid
  | .val t _ => t.kind

/-- Model of `reflect.Value.Type`: panics on the zero Value. -/
def Value.Type : Value → Except Panic GoType
  | .nil => .error Panic.typeOnZeroValue
  | .val t _ => .ok t

/-- Model of `reflect.Type.NumIn`: panics if the type's kind is not Func. -/
def GoType.NumIn : GoType → Except Panic Nat
  | .func ins _ _ => .ok ins.length
  | .named _ u => u.NumIn
  | _ => .error Panic.numInOfNonFunc

/-- Model of `reflect.Type.In`: panics if the kind is not Func or `i` is out of range. -/
def GoType.In : GoType → Nat → Except Panic GoType
  | .func ins _ _, i =>
    match ins.get? i with
    | some t => .ok t
    | none => .error Panic.inIndexOutOfRange
  | .named _ u, i => u.In i
  | _, _ => .error Panic.inOfNonFunc

/-- The word a value holds where `Pointer` reads it. -/
def Data.word : Data → Nat
  | .code entry _ => entry
  | .addr p => p
  | _ => 0

/-- Model of `reflect.Value.Pointer`: the code pointer of a func value, the address held by
a chan, map, pointer, slice or unsafe pointer; a panic for the zero Value and the kinds that
hold no pointer. -/
def Value.Pointer : Value → Except Panic Nat
  | .nil => .error Panic.pointerOnWrongKind
  | .val t d =>
    if t.kind = Kind.Func ∨ t.kind = Kind.Chan ∨ t.kind = Kind.Map ∨ t.kind = Kind.Ptr ∨
        t.kind = Kind.Slice ∨ t.kind = Kind.UnsafePointer then .ok d.word
    else .error Panic.pointerOnWrongKind

/-- Model of the slice expression `xs[lo:hi]`, with its bounds check. -/
def slice {α : Type} (xs : List α) (lo hi : Nat) : Except Panic (List α) :=
  if lo ≤ hi ∧ hi ≤ xs.length then .ok ((xs.drop lo).take (hi - lo))
  else .error Panic.sliceBoundsOutOfRange

/-! ## The dispatcher -/

/-- The `error` returned by `errors.New(msg)`. -/
structure GoError where
  msg : String
  deriving DecidableEq, Repr

/-- The struct `PubSubError`: the failing subscriber `f` and the recovered panic value `e`. -/
structure PubSubError where
  f : Iface
  e : Iface
  deriving DecidableEq

/-- Method `Subscriber` of `PubSubError`: the handler the record was made for. -/
def PubSubError.Subscriber (pse : PubSubError) : Iface := pse.f

/-- The state of a `PubSub`: its handler registry `f`.  The channels `c` and `e` and the
mutex `m` carry no state of their own: what is received from `c` is the argument of
`dispatch`, what is sent on `e` is its `errors`. -/
structure PubSub where
  f : List Iface
  deriving DecidableEq

/-- `New`: a dispatcher with an empty registry (`new(PubSub)` leaves `ps.f` nil). -/
def New : PubSub := ⟨[]⟩

/-- `Sub`: the new state and the returned error (`none` is the nil error). -/
def Sub (ps : PubSub) (f : Iface) : Except Panic (PubSub × Option GoError) :=
  let rf := ValueOf f
  if rf.Kind ≠ Kind.Func then
    .ok (ps, some ⟨"Not a function"⟩)
  else do
    let n ← (← rf.Type).NumIn
    if n ≠ 1 then
      pure (ps, some ⟨"Number of arguments should be 1"⟩)
    else
      pure (⟨ps.f ++ [f]⟩, none)

/-- The loop `for i, v := range ps.f` of `Leave`, from index `i` on: `rest` is what is
left of `all` to visit, the state is `(result, last)`. -/
def leaveLoop (all : List Iface) (fp : Nat) :
    List Iface → Nat → List Iface → Nat → Except Panic (List Iface × Nat)
  | [], _, result, last => .ok (result, last)
  | v :: rest, i, result, last => do
    let p ← (ValueOf v).Pointer
    if p = fp then
      let seg ← slice all last i
      leaveLoop all fp rest (i + 1) (result ++ seg) (i + 1)
    else
      leaveLoop all fp rest (i + 1) result last

/-- `Leave`.  `caller` is the entry point of the calling function when
`runtime.Caller(1)` reports one; it is read only when `f` is nil. -/
def Leave (ps : PubSub) (f : Iface) (caller : Option Nat) : Except Panic PubSub := do
  let fp ←
    match f with
    | .nil =>
      match caller with
      | some entry => pure entry
      | none => pure 0
    | _ => (ValueOf f).Pointer
  let (result, last) ← leaveLoop ps.f fp ps.f 0 [] 0
  let tail ← slice ps.f last ps.f.length
  pure ⟨result ++ tail⟩

/-- `Pub`: the value is sent on `ps.c` as it is, nothing is checked; the result is what
the worker receives. -/
def Pub (v : Iface) : Iface := v

/-- `Close`: the registry is dropped (`ps.f = nil`). -/
def Close (_ps : PubSub) : PubSub := ⟨[]⟩

/-- One `go func(f, rf) ...` statement of the worker: the handler, its `reflect.Value`
and the argument list `[]reflect.Value{rv}` of `rf.Call`. -/
structure Invocation where
  f : Iface
  rf : Value
  args : List Value
  deriving DecidableEq

/-- What the worker's scan of the registry did: the invocations it launched, in order, and
the panic that stopped it, if any (nothing recovers a panic of the worker goroutine). -/
structure Scan where
  launched : List Invocation
  crash : Option Panic
  deriving DecidableEq

/-- The loop `for _, f := range ps.f` of the worker, for the received value `rv`. -/
def scan (rv : Value) : List Iface → Scan
  | [] => ⟨[], none⟩
  | f :: fs =>
    let rf := ValueOf f
    match (do
      let tv ← rv.Type
      let tf ← (← (ValueOf f).Type).In 0
      pure (GoType.beq tv tf)) with
    | .error p => ⟨[], some p⟩
    | .ok true =>
      let s := scan rv fs
      ⟨⟨f, rf, [rv]⟩ :: s.launched, s.crash⟩
    | .ok false => scan rv fs

/-- How a call of a handler ends. -/
inductive Outcome where
  | returns
  | panics (payload : Iface)
  deriving DecidableEq

/-- Model of `recover()` in the deferred function: the value the panic was raised with,
nil when the call returned.  For `panic(nil)` it is nil as well: the package has no go.mod
asking for Go 1.21, where a nil panic value is replaced by a `*runtime.PanicNilError`. -/
def recover : Outcome → Iface
  | .returns => .nil
  | .panics payload => payload

/-- The goroutine of one invocation: `rf.Call(args)` under the deferred `recover`; the
result is the record it sends on `ps.e`, if it sends one. -/
def goroutine (call : Value → List Value → Outcome) (inv : Invocation) : Option PubSubError :=
  match recover (call inv.rf inv.args) with
  | .nil => none
  | err => some ⟨inv.f, err⟩

/-- What one iteration of the worker loop does. -/
structure Dispatch where
  launched : List Invocation
  errors : List PubSubError
  crash : Option Panic
  deriving DecidableEq

/-- The body of `for v := range ps.c` for the received value `v`: the scan under the lock,
then the launched goroutines, whose records are listed in launch order.  Handlers are any
Go code: `call i` is how the call made by the `i`-th goroutine of this step ends. -/
def dispatch (call : Nat → Value → List Value → Outcome) (ps : PubSub) (v : Iface) :
    Dispatch :=
  let rv := ValueOf v
  let s := scan rv ps.f
  ⟨s.launched, s.launched.enum.filterMap (fun p => goroutine (call p.1) p.2), s.crash⟩

/-- The worker loop over the values it receives, each with the registry as it is when the
worker takes the lock for it; `call k` is the oracle of step `k`.  A panic of the worker
goroutine ends the loop (and the process). -/
def worker (call : Nat → Nat → Value → List Value → Outcome) (k : Nat) :
    List (PubSub × Iface) → Dispatch
  | [] => ⟨[], [], none⟩
  | (ps, v) :: rest =>
    let d := dispatch (call k) ps v
    match d.crash with
    | some p => ⟨d.launched, d.errors, some p⟩
    | none =>
      let w := worker call (k + 1) rest
      ⟨d.launched ++ w.launched, d.errors ++ w.errors, w.crash⟩

/-! ## Vocabulary of the statements -/

/-- The identity of a handler: the function entry pointer `Leave` compares. -/
def identity (f : Iface) : Except Panic Nat := (ValueOf f).Pointer

/-- The declared parameter type of a handler, `Type().In(0)`. -/
def paramType (f : Iface) : Except Panic GoType := do
  (← (ValueOf f).Type).In 0

/-- A function of exactly one parameter: what `Sub` accepts. -/
def IsHandler (f : Iface) : Prop :=
  (ValueOf f).Kind = Kind.Func ∧ (do (← (ValueOf f).Type).NumIn) = Except.ok 1

instance (f : Iface) : Decidable (IsHandler f) := by
  unfold IsHandler
  exact inferInstance

/-- The invariant of the registry: every entry was accepted by `Sub`. -/
def WellFormed (ps : PubSub) : Prop := ∀ f ∈ ps.f, IsHandler f

instance (ps : PubSub) : Decidable (WellFormed ps) := by
  unfold WellFormed
  exact inferInstance

/-- Whether the worker's test `rv.Type() == reflect.ValueOf(h).Type().In(0)` holds for the
published value `v` and the handler `h`: both types exist and are the same type. -/
def fires (v h : Iface) : Bool :=
  match (ValueOf v).Type, paramType h with
  | .ok tv, .ok th => decide (tv = th)
  | _, _ => false

/-- Whether the call of an invocation fails, that is panics. -/
def fails (call : Value → List Value → Outcome) (inv : Invocation) : Bool :=
  match call inv.rf inv.args with
  | .panics _ => true
  | .returns => false

/-- A run of `Sub` calls, one after another, whatever each returns. -/
def subAll (ps : PubSub) : List Iface → Except Panic PubSub
  | [] => .ok ps
  | f :: fs => do
    let (ps1, _) ← Sub ps f
    subAll ps1 fs

/-- A func value taking one string, with any results, entry point and closure. -/
def stringHandler (outs : List GoType) (entry env : Nat) : Iface :=
  .val (.func [.string] outs false) (.code entry env)

/-- A func value taking one int, with any results, entry point and closure. -/
def intHandler (outs : List GoType) (entry env : Nat) : Iface :=
  .val (.func [.int] outs false) (.code entry env)

/-- A handler `func(string)`, the `A` of the end-to-end scenario. -/
def handlerA : Iface := stringHandler [] 4096 0

/-- A handler `func(int)`, the `B` of the end-to-end scenario. -/
def handlerB : Iface := intHandler [] 8192 0

/-- The Go string `s` as an interface value. -/
def goString (s : String) : Iface := .val .string (.str s)

/-- The Go int `n` as an interface value. -/
def goInt (n : Int) : Iface := .val .int (.int n)

/-! ## Lemmas on the model of `reflect` -/

theorem bind_ok {α β : Type} (a : α) (k : α → Except Panic β) :
    (Except.ok a >>= k) = k a := rfl

theorem bind_error {α β : Type} (p : Panic) (k : α → Except Panic β) :
    ((Except.error p : Except Panic α) >>= k) = Except.error p := rfl

theorem kind_func_val {f : Iface} (h : (ValueOf f).Kind = Kind.Func) :
    ∃ t d, f = Iface.val t d ∧ t.kind = Kind.Func := by
  cases f with
  | nil => simp [ValueOf, Value.Kind] at h
  | val t d => exact ⟨t, d, rfl, h⟩

theorem pointer_of_kind_func {f : Iface} (h : (ValueOf f).Kind = Kind.Func) :
    ∃ p, (ValueOf f).Pointer = Except.ok p := by
  obtain ⟨t, d, rfl, ht⟩ := kind_func_val h
  exact ⟨d.word, by simp [ValueOf, Value.Pointer, ht]⟩

theorem GoType.In_zero_of_NumIn_one : ∀ t : GoType, t.NumIn = Except.ok 1 →
    ∃ p, t.In 0 = Except.ok p
  | .func ins _ _, h => by
    simp only [GoType.NumIn, Except.ok.injEq] at h
    match ins, h with
    | [p], _ => exact ⟨p, rfl⟩
  | .named _ u, h => by
    simpa [GoType.In] using GoType.In_zero_of_NumIn_one u (by simpa [GoType.NumIn] using h)
  | .bool, h => by simp [GoType.NumIn] at h
  | .int, h => by simp [GoType.NumIn] at h
  | .int32, h => by simp [GoType.NumIn] at h
  | .string, h => by simp [GoType.NumIn] at h
  | .ptr _, h => by simp [GoType.NumIn] at h
  | .slice _, h => by simp [GoType.NumIn] at h
  | .iface _, h => by simp [GoType.NumIn] at h
  | .other _ _, h => by simp [GoType.NumIn] at h

theorem paramType_of_isHandler {f : Iface} (h : IsHandler f) :
    ∃ p, paramType f = Except.ok p := by
  obtain ⟨t, d, rfl, _⟩ := kind_func_val h.1
  have h2 : t.NumIn = Except.ok 1 := h.2
  obtain ⟨p, hp⟩ := GoType.In_zero_of_NumIn_one t h2
  exact ⟨p, hp⟩

/-! ## Lemmas on the worker's scan -/

theorem fires_of_val (t : GoType) (d : Data) (h : Iface) :
    fires (Iface.val t d) h = decide (paramType h = Except.ok t) := by
  unfold fires
  simp only [ValueOf, Value.Type]
  cases hp : paramType h with
  | error e => simp
  | ok th =>
    by_cases hth : t = th
    · subst hth; simp
    · have : ¬ th = t := fun e => hth e.symm
      simp [hth, this]

theorem fires_nil (h : Iface) : fires Iface.nil h = false := by
  simp [fires, ValueOf, Value.Type]

theorem scan_nil_launched (fs : List Iface) : (scan Iface.nil fs).launched = [] := by
  cases fs with
  | nil => rfl
  | cons f fs => rfl

theorem paramType_val {f : Iface} {p : GoType} (hp : paramType f = Except.ok p) :
    ∃ tf df, f = Iface.val tf df ∧ tf.In 0 = Except.ok p := by
  cases f with
  | nil => simp [paramType, ValueOf, Value.Type, bind, Except.bind] at hp
  | val tf df => exact ⟨tf, df, rfl, hp⟩

theorem scan_cons (t : GoType) (d : Data) (f : Iface) (fs : List Iface) (p : GoType)
    (hp : paramType f = Except.ok p) :
    scan (Iface.val t d) (f :: fs) =
      if GoType.beq t p = true then
        ⟨⟨f, ValueOf f, [Iface.val t d]⟩ :: (scan (Iface.val t d) fs).launched,
          (scan (Iface.val t d) fs).crash⟩
      else scan (Iface.val t d) fs := by
  obtain ⟨tf, df, rfl, hin⟩ := paramType_val hp
  cases hb : GoType.beq t p with
  | true => simp [scan, ValueOf, Value.Type, bind, Except.bind, hin, hb, pure, Except.pure]
  | false => simp [scan, ValueOf, Value.Type, bind, Except.bind, hin, hb, pure, Except.pure]

theorem fires_eq_beq (t : GoType) (d : Data) (f : Iface) (p : GoType)
    (hp : paramType f = Except.ok p) : fires (Iface.val t d) f = GoType.beq t p := by
  rw [fires_of_val, hp]
  by_cases htp : t = p
  · subst htp; simp [GoType.beq_self]
  · have hb : GoType.beq t p = false := by
      cases hb : GoType.beq t p with
      | false => rfl
      | true => exact absurd (GoType.eq_of_beq _ _ hb) htp
    have : ¬ p = t := fun e => htp e.symm
    simp [hb, this]

/-- On a registry of handlers the scan launches the entries that fire, in registry order,
each with the published value as its only argument. -/
theorem scan_launched (v : Iface) :
    ∀ fs : List Iface, (∀ f ∈ fs, IsHandler f) →
      (scan (ValueOf v) fs).launched =
        (fs.filter (fires v)).map (fun h => ⟨h, ValueOf h, [ValueOf v]⟩)
  | [], _ => rfl
  | f :: fs, hfs => by
    cases v with
    | nil => simp [ValueOf, scan_nil_launched, fires_nil]
    | val t d =>
      have ih := scan_launched (Iface.val t d) fs (fun g hg => hfs g (List.mem_cons_of_mem _ hg))
      obtain ⟨p, hp⟩ := paramType_of_isHandler (hfs f (List.mem_cons_self _ _))
      have hfire := fires_eq_beq t d f p hp
      simp only [ValueOf] at ih ⊢
      rw [scan_cons t d f fs p hp]
      cases hb : GoType.beq t p with
      | true => simp [List.filter_cons, hfire, hb, ih, ValueOf]
      | false => simp [List.filter_cons, hfire, hb, ih]

/-- On a registry of handlers the scan of a value that has a type never panics. -/
theorem scan_crash_none (t : GoType) (d : Data) :
    ∀ fs : List Iface, (∀ f ∈ fs, IsHandler f) → (scan (Iface.val t d) fs).crash = none
  | [], _ => rfl
  | f :: fs, hfs => by
    have ih := scan_crash_none t d fs (fun g hg => hfs g (List.mem_cons_of_mem _ hg))
    obtain ⟨p, hp⟩ := paramType_of_isHandler (hfs f (List.mem_cons_self _ _))
    rw [scan_cons t d f fs p hp]
    cases hb : GoType.beq t p with
    | true => simp [ih]
    | false => simp [ih]

/-! ## Lemmas on the loop of `Leave` -/

theorem slice_mid {α : Type} (pre pend rest : List α) :
    slice (pre ++ pend ++ rest) pre.length (pre.length + pend.length) = Except.ok pend := by
  unfold slice
  have h : pre.length ≤ pre.length + pend.length ∧
      pre.length + pend.length ≤ (pre ++ pend ++ rest).length := by
    simp only [List.length_append]; omega
  rw [if_pos h, List.append_assoc, List.drop_left]
  simp

theorem slice_tail {α : Type} (pre pend : List α) :
    slice (pre ++ pend) pre.length (pre ++ pend).length = Except.ok pend := by
  have h := slice_mid pre pend []
  simpa using h

/-- The loop of `Leave` with the registry split at its state: `pre` is `all[:last]`,
`pend` is `all[last:i]`, `rest` is what the loop has still to visit. -/
theorem leaveLoop_spec (fp : Nat) (all : List Iface) :
    ∀ (rest pre pend result : List Iface), all = pre ++ pend ++ rest →
      (∀ e ∈ rest, (ValueOf e).Kind = Kind.Func) →
      ∃ result1 pre1 pend1, all = pre1 ++ pend1 ∧
        leaveLoop all fp rest (pre.length + pend.length) result pre.length
          = Except.ok (result1, pre1.length) ∧
        result1 ++ pend1
          = result ++ pend ++ rest.filter (fun e => decide (identity e ≠ Except.ok fp))
  | [], pre, pend, result, hall, _ => by
    refine ⟨result, pre, pend, by simpa using hall, rfl, by simp⟩
  | v :: rest, pre, pend, result, hall, hk => by
    obtain ⟨p, hp⟩ := pointer_of_kind_func (hk v (List.mem_cons_self _ _))
    have hk2 : ∀ e ∈ rest, (ValueOf e).Kind = Kind.Func :=
      fun e he => hk e (List.mem_cons_of_mem _ he)
    by_cases hpf : p = fp
    · have hall2 : all = (pre ++ pend ++ [v]) ++ [] ++ rest := by simp [hall]
      obtain ⟨r1, pre1, pend1, h1, h2, h3⟩ :=
        leaveLoop_spec fp all rest (pre ++ pend ++ [v]) [] (result ++ pend) hall2 hk2
      refine ⟨r1, pre1, pend1, h1, ?_, ?_⟩
      · have hs : slice all pre.length (pre.length + pend.length) = Except.ok pend := by
          rw [hall]; exact slice_mid pre pend (v :: rest)
        have hlen : (pre ++ pend ++ [v]).length = pre.length + pend.length + 1 := by
          simp only [List.length_append, List.length_singleton]
        simp only [hlen, List.length_nil, Nat.add_zero] at h2
        simp only [leaveLoop, hp, bind, Except.bind, hpf, if_true, hs]
        exact h2
      · rw [h3]
        have : identity v = Except.ok fp := by rw [← hpf]; exact hp
        simp [List.filter_cons, this]
    · have hall2 : all = pre ++ (pend ++ [v]) ++ rest := by simp [hall]
      obtain ⟨r1, pre1, pend1, h1, h2, h3⟩ :=
        leaveLoop_spec fp all rest pre (pend ++ [v]) result hall2 hk2
      refine ⟨r1, pre1, pend1, h1, ?_, ?_⟩
      · have hlen : pre.length + (pend ++ [v]).length = pre.length + pend.length + 1 := by
          simp; omega
        rw [hlen] at h2
        simp only [leaveLoop, hp, bind, Except.bind, hpf, if_false]
        exact h2
      · rw [h3]
        have : identity v ≠ Except.ok fp := by
          intro h
          have h4 : Except.ok p = (Except.ok fp : Except Panic Nat) := by rw [← hp]; exact h
          exact hpf (Except.ok.inj h4)
        simp [List.filter_cons, this]

/-- With the identity `fp` in hand, what `Leave` does to a registry of functions is to
keep the entries whose identity differs from `fp`, in their order. -/
theorem leave_core (fp : Nat) (all : List Iface)
    (hk : ∀ e ∈ all, (ValueOf e).Kind = Kind.Func) :
    (do
      let (result, last) ← leaveLoop all fp all 0 [] 0
      let tail ← slice all last all.length
      pure (⟨result ++ tail⟩ : PubSub))
      = Except.ok ⟨all.filter (fun e => decide (identity e ≠ Except.ok fp))⟩ := by
  obtain ⟨r1, pre1, pend1, h1, h2, h3⟩ :=
    leaveLoop_spec fp all all [] [] [] (by simp) hk
  simp only [List.length_nil, Nat.add_zero] at h2
  have hs : slice all pre1.length all.length = Except.ok pend1 := by
    rw [h1]; exact slice_tail pre1 pend1
  simp only [h2, bind, Except.bind, hs, pure, Except.pure]
  rw [h3]
  simp

theorem kind_of_isHandler {ps : PubSub} (hwf : WellFormed ps) :
    ∀ e ∈ ps.f, (ValueOf e).Kind = Kind.Func :=
  fun e he => (hwf e he).1

/-- `Leave` with a function as argument, on a registry of handlers. -/
theorem leave_filter (ps : PubSub) (f : Iface) (caller : Option Nat) (fp : Nat)
    (hwf : WellFormed ps) (hf : (ValueOf f).Kind = Kind.Func) (hfp : identity f = Except.ok fp) :
    Leave ps f caller
      = Except.ok ⟨ps.f.filter (fun e => decide (identity e ≠ Except.ok fp))⟩ := by
  obtain ⟨t, d, rfl, _⟩ := kind_func_val hf
  have hfp2 : (ValueOf (Iface.val t d)).Pointer = Except.ok fp := hfp
  have hc := leave_core fp ps.f (kind_of_isHandler hwf)
  unfold Leave
  simp only [hfp2, bind, Except.bind] at hc ⊢
  exact hc

/-! ## The dispatch step -/

/-- C1: for a registry of handlers and a published value that has a runtime type `t`, the
dispatch step launches exactly the registry entries whose parameter type `In(0)` is `t`, in
registration order, each called with the value as its sole argument: an entry is launched
if and only if its parameter type equals `t`; and the step does not panic. -/
theorem dispatch_launches_exact_type (call : Nat → Value → List Value → Outcome) (ps : PubSub)
    (t : GoType) (d : Data) (hwf : WellFormed ps) :
    (dispatch call ps (Iface.val t d)).launched
        = (ps.f.filter (fun h => decide (paramType h = Except.ok t))).map
            (fun h => ⟨h, ValueOf h, [ValueOf (Iface.val t d)]⟩) ∧
      (∀ h ∈ ps.f, (∃ inv ∈ (dispatch call ps (Iface.val t d)).launched, inv.f = h)
        ↔ paramType h = Except.ok t) ∧
      (dispatch call ps (Iface.val t d)).crash = none := by
  have hl : (dispatch call ps (Iface.val t d)).launched
      = (ps.f.filter (fun h => decide (paramType h = Except.ok t))).map
          (fun h => ⟨h, ValueOf h, [ValueOf (Iface.val t d)]⟩) := by
    have h := scan_launched (Iface.val t d) ps.f hwf
    have hf : fires (Iface.val t d) = fun h => decide (paramType h = Except.ok t) :=
      funext (fires_of_val t d)
    rw [hf] at h
    exact h
  refine ⟨hl, ?_, scan_crash_none t d ps.f hwf⟩
  intro h hh
  rw [hl]
  constructor
  · rintro ⟨inv, hinv, rfl⟩
    obtain ⟨g, hg, rfl⟩ := List.mem_map.mp hinv
    simpa using (List.mem_filter.mp hg).2
  · intro hp
    exact ⟨⟨h, ValueOf h, [ValueOf (Iface.val t d)]⟩,
      List.mem_map.mpr ⟨h, List.mem_filter.mpr ⟨hh, by simpa using hp⟩, rfl⟩, rfl⟩

theorem dispatch_launches_exact_type_witness :
    WellFormed ⟨[handlerA, handlerB, handlerA]⟩ ∧
      (dispatch (fun _ _ _ => Outcome.returns) ⟨[handlerA, handlerB, handlerA]⟩
          (goString "hi")).launched
        = [⟨handlerA, handlerA, [goString "hi"]⟩, ⟨handlerA, handlerA, [goString "hi"]⟩] :=
  ⟨by decide,
    (dispatch_launches_exact_type (fun _ _ _ => Outcome.returns) ⟨[handlerA, handlerB, handlerA]⟩
      GoType.string (Data.str "hi") (by decide)).1.trans (by decide)⟩

/-- C2, as stated, fails: a handler that fires and panics with the nil value is one failing
invocation, and the dispatch step produces no error record for it. -/
theorem nil_panic_leaves_no_record :
    (dispatch (fun _ _ _ => Outcome.panics Iface.nil) ⟨[handlerA]⟩ (goString "hi")).launched
        = [⟨handlerA, handlerA, [goString "hi"]⟩] ∧
      ((dispatch (fun _ _ _ => Outcome.panics Iface.nil) ⟨[handlerA]⟩
          (goString "hi")).launched.enum.countP
            (fun p => fails ((fun _ _ _ => Outcome.panics Iface.nil) p.1) p.2)) = 1 ∧
      (dispatch (fun _ _ _ => Outcome.panics Iface.nil) ⟨[handlerA]⟩ (goString "hi")).errors
        = [] := by
  decide

theorem goroutine_eq (call : Value → List Value → Outcome) (inv : Invocation)
    (h : call inv.rf inv.args ≠ Outcome.panics Iface.nil) :
    goroutine call inv =
      match call inv.rf inv.args with
      | Outcome.panics p => some ⟨inv.f, p⟩
      | Outcome.returns => none := by
  unfold goroutine
  cases hc : call inv.rf inv.args with
  | returns => rfl
  | panics p =>
    cases p with
    | nil => exact absurd hc h
    | val t d => rfl

theorem filterMap_congr_mem {α β : Type} (f g : α → Option β) :
    ∀ l : List α, (∀ a ∈ l, f a = g a) → l.filterMap f = l.filterMap g
  | [], _ => rfl
  | a :: l, h => by
    have h1 := h a (List.mem_cons_self _ _)
    have h2 := filterMap_congr_mem f g l (fun b hb => h b (List.mem_cons_of_mem _ hb))
    simp [List.filterMap_cons, h1, h2]

theorem length_filterMap_panics (call : Nat → Value → List Value → Outcome) :
    ∀ l : List (Nat × Invocation),
      (l.filterMap (fun p =>
          match call p.1 p.2.rf p.2.args with
          | Outcome.panics e => some (⟨p.2.f, e⟩ : PubSubError)
          | Outcome.returns => none)).length = l.countP (fun p => fails (call p.1) p.2)
  | [] => rfl
  | p :: l => by
    have ih := length_filterMap_panics call l
    cases hc : call p.1 p.2.rf p.2.args with
    | returns => simp [List.filterMap_cons, List.countP_cons, fails, hc, ih]
    | panics e => simp [List.filterMap_cons, List.countP_cons, fails, hc, ih]

theorem mem_of_mem_enum {α : Type} {p : Nat × α} {l : List α} (h : p ∈ l.enum) : p.2 ∈ l := by
  have h2 : p.2 ∈ l.enum.map Prod.snd := List.mem_map.mpr ⟨p, h, rfl⟩
  rw [List.enum_map_snd] at h2
  exact h2

/-- C2, amended: for a registry of handlers and a published value, when no goroutine of
the step panics with the nil value, one dispatch step invokes the N firing entries exactly
once each (the failure of one stops no sibling) and produces exactly K error records, K the
number of invocations that panic: one per failing invocation, holding that invocation's
handler (`Subscriber`) and its panic value; an invocation that returns produces none. -/
theorem dispatch_records_each_failure (call : Nat → Value → List Value → Outcome)
    (ps : PubSub) (v : Iface) (hwf : WellFormed ps)
    (hnil : ∀ p ∈ (dispatch call ps v).launched.enum,
      call p.1 p.2.rf p.2.args ≠ Outcome.panics Iface.nil) :
    (dispatch call ps v).launched.map (fun inv => inv.f) = ps.f.filter (fires v) ∧
      (∀ inv ∈ (dispatch call ps v).launched, inv.rf = ValueOf inv.f ∧ inv.args = [v]) ∧
      (dispatch call ps v).errors
        = (dispatch call ps v).launched.enum.filterMap (fun p =>
            match call p.1 p.2.rf p.2.args with
            | Outcome.panics e => some ⟨p.2.f, e⟩
            | Outcome.returns => none) ∧
      (dispatch call ps v).errors.length
        = (dispatch call ps v).launched.enum.countP (fun p => fails (call p.1) p.2) ∧
      (∀ e ∈ (dispatch call ps v).errors, ∃ p ∈ (dispatch call ps v).launched.enum,
        e.Subscriber = p.2.f ∧ call p.1 p.2.rf p.2.args = Outcome.panics e.e) := by
  have hl : (dispatch call ps v).launched
      = (ps.f.filter (fires v)).map (fun h => ⟨h, ValueOf h, [ValueOf v]⟩) :=
    scan_launched v ps.f hwf
  have hmem : ∀ inv ∈ (dispatch call ps v).launched,
      inv.rf = ValueOf inv.f ∧ inv.args = [v] := by
    intro inv hinv
    rw [hl] at hinv
    obtain ⟨g, _, rfl⟩ := List.mem_map.mp hinv
    exact ⟨rfl, rfl⟩
  have he : (dispatch call ps v).errors
      = (dispatch call ps v).launched.enum.filterMap (fun p =>
          match call p.1 p.2.rf p.2.args with
          | Outcome.panics e => some ⟨p.2.f, e⟩
          | Outcome.returns => none) := by
    show (dispatch call ps v).launched.enum.filterMap (fun p => goroutine (call p.1) p.2) = _
    apply filterMap_congr_mem
    intro p hp
    exact goroutine_eq (call p.1) p.2 (hnil p hp)
  refine ⟨?_, hmem, he, ?_, ?_⟩
  · rw [hl, List.map_map]
    exact List.map_id _
  · rw [he]
    exact length_filterMap_panics call _
  · intro e hee
    rw [he] at hee
    obtain ⟨p, hp, hsome⟩ := List.mem_filterMap.mp hee
    refine ⟨p, hp, ?_⟩
    cases hc : call p.1 p.2.rf p.2.args with
    | returns => simp [hc] at hsome
    | panics x =>
      simp only [hc, Option.some.injEq] at hsome
      subst hsome
      exact ⟨rfl, rfl⟩

theorem dispatch_records_each_failure_witness :
    WellFormed ⟨[handlerA, handlerB, handlerA]⟩ ∧
      (dispatch (fun _ _ _ => Outcome.panics (goInt 7)) ⟨[handlerA, handlerB, handlerA]⟩
        (goString "hi")).errors.length = 2 :=
  ⟨by decide,
    (dispatch_records_each_failure (fun _ _ _ => Outcome.panics (goInt 7))
      ⟨[handlerA, handlerB, handlerA]⟩ (goString "hi") (by decide)
      (fun _ _ => by simp [goInt])).2.2.2.1.trans (by decide)⟩

/-! ## `Sub` -/

/-- C3: `Sub` of an argument that is not a function (nil included), or of a function that
has 0 or at least 2 parameters, returns a non-nil error and leaves the registry as it was:
the state returned is the state given. -/
theorem Sub_rejects_invalid (ps : PubSub) (f : Iface) :
    ((ValueOf f).Kind ≠ Kind.Func → Sub ps f = Except.ok (ps, some ⟨"Not a function"⟩)) ∧
      (∀ t n, (ValueOf f).Kind = Kind.Func → (ValueOf f).Type = Except.ok t →
        t.NumIn = Except.ok n → n = 0 ∨ 2 ≤ n →
        Sub ps f = Except.ok (ps, some ⟨"Number of arguments should be 1"⟩)) ∧
      Sub ps Iface.nil = Except.ok (ps, some ⟨"Not a function"⟩) := by
  refine ⟨?_, ?_, rfl⟩
  · intro h
    unfold Sub
    simp only [h, ne_eq, not_false_eq_true, if_true]
  · intro t n hk ht hn hne
    have hne1 : n ≠ 1 := by omega
    unfold Sub
    simp only [hk, ne_eq, not_true_eq_false, if_false, ht, bind, Except.bind, hn, hne1,
      not_false_eq_true, if_true, pure, Except.pure]

theorem Sub_rejects_invalid_witness :
    Sub ⟨[handlerA]⟩ (goInt 5) = Except.ok (⟨[handlerA]⟩, some ⟨"Not a function"⟩) ∧
      Sub ⟨[handlerA]⟩ (Iface.val (GoType.func [GoType.int, GoType.string] [] false)
          (Data.code 64 0))
        = Except.ok (⟨[handlerA]⟩, some ⟨"Number of arguments should be 1"⟩) ∧
      Sub ⟨[handlerA]⟩ (Iface.val (GoType.func [] [] false) (Data.code 128 0))
        = Except.ok (⟨[handlerA]⟩, some ⟨"Number of arguments should be 1"⟩) :=
  ⟨(Sub_rejects_invalid ⟨[handlerA]⟩ (goInt 5)).1 (by decide),
    (Sub_rejects_invalid ⟨[handlerA]⟩ (Iface.val (GoType.func [GoType.int, GoType.string] []
      false) (Data.code 64 0))).2.1 _ 2 rfl rfl rfl (Or.inr (Nat.le_refl 2)),
    (Sub_rejects_invalid ⟨[handlerA]⟩ (Iface.val (GoType.func [] [] false)
      (Data.code 128 0))).2.1 _ 0 rfl rfl rfl (Or.inl rfl)⟩

theorem Sub_of_isHandler (ps : PubSub) (f : Iface) (hf : IsHandler f) :
    Sub ps f = Except.ok (⟨ps.f ++ [f]⟩, none) := by
  obtain ⟨t, d, rfl, _⟩ := kind_func_val hf.1
  have hk : Value.Kind (Iface.val t d) = Kind.Func := hf.1
  have hn : t.NumIn = Except.ok 1 := hf.2
  unfold Sub
  simp only [hk, ne_eq, not_true_eq_false, if_false, ValueOf, Value.Type, bind, Except.bind,
    hn, pure, Except.pure]

theorem GoType.NumIn_ok_of_kind_func : ∀ t : GoType, t.kind = Kind.Func →
    ∃ n, t.NumIn = Except.ok n
  | .func ins _ _, _ => ⟨ins.length, rfl⟩
  | .named _ u, h => by
    simpa [GoType.NumIn] using GoType.NumIn_ok_of_kind_func u (by simpa [GoType.kind] using h)
  | .bool, h => by simp [GoType.kind] at h
  | .int, h => by simp [GoType.kind] at h
  | .int32, h => by simp [GoType.kind] at h
  | .string, h => by simp [GoType.kind] at h
  | .ptr _, h => by simp [GoType.kind] at h
  | .slice _, h => by simp [GoType.kind] at h
  | .iface _, h => by simp [GoType.kind] at h
  | .other k _, h => by cases k <;> simp [GoType.kind, OtherKind.toKind] at h

theorem Sub_of_not_isHandler (ps : PubSub) (f : Iface) (hf : ¬ IsHandler f) :
    ∃ e, Sub ps f = Except.ok (ps, some e) := by
  by_cases hk : (ValueOf f).Kind = Kind.Func
  · obtain ⟨t, d, rfl, ht⟩ := kind_func_val hk
    have hk2 : Value.Kind (Iface.val t d) = Kind.Func := hk
    obtain ⟨n, hn⟩ := GoType.NumIn_ok_of_kind_func t ht
    have hne : n ≠ 1 := by
      intro h1
      apply hf
      refine ⟨hk, ?_⟩
      show t.NumIn = Except.ok 1
      rw [hn, h1]
    refine ⟨⟨"Number of arguments should be 1"⟩, ?_⟩
    unfold Sub
    simp only [hk2, ne_eq, not_true_eq_false, if_false, ValueOf, Value.Type, bind,
      Except.bind, hn, hne, not_false_eq_true, if_true, pure, Except.pure]
  · refine ⟨⟨"Not a function"⟩, ?_⟩
    unfold Sub
    simp only [hk, ne_eq, not_false_eq_true, if_true]

theorem subAll_eq : ∀ (fs : List Iface) (ps : PubSub),
    subAll ps fs = Except.ok ⟨ps.f ++ fs.filter (fun g => decide (IsHandler g))⟩
  | [], ps => by simp [subAll]
  | f :: fs, ps => by
    by_cases hf : IsHandler f
    · simp only [subAll, Sub_of_isHandler ps f hf, bind, Except.bind]
      rw [subAll_eq fs]
      simp [List.filter_cons, hf]
    · obtain ⟨e, he⟩ := Sub_of_not_isHandler ps f hf
      simp only [subAll, he, bind, Except.bind]
      rw [subAll_eq fs]
      simp [List.filter_cons, hf]

/-- C4: `Sub` of a function with exactly one parameter returns nil and the registry
afterwards is the old registry with the function appended as its last entry; so after a run
of `Sub` calls the registry is the old one followed by the accepted arguments, in the order
of the calls. -/
theorem Sub_appends_handler (ps : PubSub) (f : Iface) (hf : IsHandler f) :
    Sub ps f = Except.ok (⟨ps.f ++ [f]⟩, none) ∧
      ∀ fs : List Iface,
        subAll ps fs = Except.ok ⟨ps.f ++ fs.filter (fun g => decide (IsHandler g))⟩ :=
  ⟨Sub_of_isHandler ps f hf, fun fs => subAll_eq fs ps⟩

theorem Sub_appends_handler_witness :
    IsHandler handlerB ∧
      Sub ⟨[handlerA]⟩ handlerB = Except.ok (⟨[handlerA, handlerB]⟩, none) :=
  ⟨by decide, (Sub_appends_handler ⟨[handlerA]⟩ handlerB (by decide)).1⟩

/-! ## `Leave` -/

/-- C5: for a registry of handlers and a function `f`, with `fp` the identity of `f`, the
registry after `Leave(f)` is the old registry without the entries whose identity is `fp`
(all copies, wherever they sit), the other entries kept in their order: the slicing loop of
`Leave` is the filter of the registry by "the identity differs from that of `f`". -/
theorem Leave_removes_every_copy (ps : PubSub) (f : Iface) (caller : Option Nat)
    (hwf : WellFormed ps) (hf : (ValueOf f).Kind = Kind.Func) :
    ∃ fp, identity f = Except.ok fp ∧
      Leave ps f caller
        = Except.ok ⟨ps.f.filter (fun e => decide (identity e ≠ Except.ok fp))⟩ := by
  obtain ⟨fp, hfp⟩ := pointer_of_kind_func hf
  exact ⟨fp, hfp, leave_filter ps f caller fp hwf hf hfp⟩

theorem Leave_removes_every_copy_witness :
    WellFormed ⟨[handlerA, handlerA, handlerB, handlerA, handlerB, handlerA]⟩ ∧
      Leave ⟨[handlerA, handlerA, handlerB, handlerA, handlerB, handlerA]⟩ handlerA none
        = Except.ok ⟨[handlerB, handlerB]⟩ := by
  refine ⟨by decide, ?_⟩
  obtain ⟨fp, h1, h2⟩ := Leave_removes_every_copy
    ⟨[handlerA, handlerA, handlerB, handlerA, handlerB, handlerA]⟩ handlerA none
    (by decide) (by decide)
  have hfp : fp = 4096 := (Except.ok.inj (h1.symm.trans (by decide : identity handlerA = Except.ok 4096)))
  subst hfp
  exact h2.trans (by decide)

/-- C6: for a registry of handlers and a function `f` whose identity no entry has,
`Leave(f)` ends without a panic and the registry is the one it was; on the empty registry
`Leave` changes nothing, and a second `Leave(f)` right after a first changes nothing. -/
theorem Leave_absent_is_noop (ps : PubSub) (f : Iface) (caller : Option Nat)
    (hwf : WellFormed ps) (hf : (ValueOf f).Kind = Kind.Func) :
    ((∀ e ∈ ps.f, identity e ≠ identity f) → Leave ps f caller = Except.ok ps) ∧
      Leave New f caller = Except.ok New ∧
      ∃ ps1, Leave ps f caller = Except.ok ps1 ∧ Leave ps1 f caller = Except.ok ps1 := by
  obtain ⟨fp, hfp⟩ := pointer_of_kind_func hf
  have hfp2 : identity f = Except.ok fp := hfp
  have hwf0 : WellFormed New := fun e he => by simp [New] at he
  refine ⟨?_, ?_, ?_⟩
  · intro habs
    rw [leave_filter ps f caller fp hwf hf hfp]
    have : ps.f.filter (fun e => decide (identity e ≠ Except.ok fp)) = ps.f := by
      apply List.filter_eq_self.mpr
      intro e he
      have := habs e he
      rw [hfp2] at this
      simpa using this
    rw [this]
  · rw [leave_filter New f caller fp hwf0 hf hfp]
    rfl
  · refine ⟨⟨ps.f.filter (fun e => decide (identity e ≠ Except.ok fp))⟩,
      leave_filter ps f caller fp hwf hf hfp, ?_⟩
    have hwf1 : WellFormed ⟨ps.f.filter (fun e => decide (identity e ≠ Except.ok fp))⟩ :=
      fun e he => hwf e (List.mem_filter.mp he).1
    rw [leave_filter _ f caller fp hwf1 hf hfp]
    simp [List.filter_filter]

theorem Leave_absent_is_noop_witness :
    WellFormed ⟨[handlerB, handlerB]⟩ ∧
      Leave ⟨[handlerB, handlerB]⟩ handlerA none = Except.ok ⟨[handlerB, handlerB]⟩ :=
  ⟨by decide,
    (Leave_absent_is_noop ⟨[handlerB, handlerB]⟩ handlerA none (by decide) (by decide)).1
      (by decide)⟩

/-! ## Values without handlers, and the nil value -/

/-- C7, the input on which the code fails: with one handler registered, the dispatch step
for the published nil value panics in `rv.Type()` before it launches anything, and the
worker loop does not reach the next published value (here "hi", which would fire). -/
theorem dispatch_nil_panics (call : Nat → Nat → Value → List Value → Outcome) :
    dispatch (call 0) ⟨[handlerA]⟩ (Pub Iface.nil) = ⟨[], [], some Panic.typeOnZeroValue⟩ ∧
      worker call 0 [(⟨[handlerA]⟩, Pub Iface.nil), (⟨[handlerA]⟩, Pub (goString "hi"))]
        = ⟨[], [], some Panic.typeOnZeroValue⟩ ∧
      (worker call 0 [(⟨[handlerA]⟩, Pub (goString "hi"))]).launched
        = [⟨handlerA, handlerA, [goString "hi"]⟩] :=
  ⟨rfl, rfl, rfl⟩

/-- The part of C7 the code keeps: a value that has a runtime type and fires no handler of
a registry of handlers, and any value on the empty registry, gives a dispatch step without
panic, invocation or error record. -/
theorem dispatch_unmatched (call : Nat → Value → List Value → Outcome) (ps : PubSub) (v : Iface)
    (hwf : WellFormed ps) (hv : v ≠ Iface.nil ∨ ps.f = [])
    (hno : ∀ h ∈ ps.f, fires v h = false) :
    dispatch call ps v = ⟨[], [], none⟩ := by
  have hl : (dispatch call ps v).launched = [] := by
    have h := scan_launched v ps.f hwf
    have hfil : ps.f.filter (fires v) = [] := by
      apply List.filter_eq_nil_iff.mpr
      intro h hh
      simp [hno h hh]
    rw [hfil] at h
    exact h
  have hc : (dispatch call ps v).crash = none := by
    cases v with
    | nil =>
      rcases hv with hv | hv
      · exact absurd rfl hv
      · show (scan _ ps.f).crash = none
        rw [hv]; rfl
    | val t d => exact scan_crash_none t d ps.f hwf
  have he : (dispatch call ps v).errors = [] := by
    show (dispatch call ps v).launched.enum.filterMap
      (fun p => goroutine (call p.1) p.2) = []
    rw [hl]; rfl
  cases hd : dispatch call ps v with
  | mk l e c =>
    rw [hd] at hl hc he
    simp only at hl hc he
    rw [hl, hc, he]

/-! ## Dispatch after `Leave` -/

/-- C8: for a registry of handlers, a function `f` of identity `fp` and any published
value, the dispatch step on the registry left by `Leave(f)` launches no entry of identity
`fp`, and launches what the dispatch step on the registry before would have launched with
the entries of identity `fp` left out: the same other entries, as often, in the same
order. -/
theorem dispatch_after_Leave (call : Nat → Value → List Value → Outcome) (ps : PubSub)
    (f : Iface) (caller : Option Nat) (v : Iface)
    (hwf : WellFormed ps) (hf : (ValueOf f).Kind = Kind.Func) :
    ∃ fp ps1, identity f = Except.ok fp ∧ Leave ps f caller = Except.ok ps1 ∧
      (∀ inv ∈ (dispatch call ps1 v).launched, identity inv.f ≠ Except.ok fp) ∧
      (dispatch call ps1 v).launched
        = (dispatch call ps v).launched.filter
            (fun inv => decide (identity inv.f ≠ Except.ok fp)) := by
  obtain ⟨fp, hfp⟩ := pointer_of_kind_func hf
  have hwf1 : WellFormed ⟨ps.f.filter (fun e => decide (identity e ≠ Except.ok fp))⟩ :=
    fun e he => hwf e (List.mem_filter.mp he).1
  have h1 : (dispatch call ⟨ps.f.filter (fun e => decide (identity e ≠ Except.ok fp))⟩
      v).launched = _ := scan_launched v _ hwf1
  have h0 : (dispatch call ps v).launched = _ := scan_launched v ps.f hwf
  have heq : (dispatch call ⟨ps.f.filter (fun e => decide (identity e ≠ Except.ok fp))⟩
      v).launched = (dispatch call ps v).launched.filter
        (fun inv => decide (identity inv.f ≠ Except.ok fp)) := by
    rw [h1, h0, List.filter_map, List.filter_filter, List.filter_filter]
    congr 1
    apply List.filter_congr
    intro x _
    simp [Bool.and_comm]
  refine ⟨fp, _, hfp, leave_filter ps f caller fp hwf hf hfp, ?_, heq⟩
  intro inv hinv
  rw [heq] at hinv
  simpa using (List.mem_filter.mp hinv).2

theorem dispatch_after_Leave_witness :
    WellFormed ⟨[handlerA, handlerB, handlerA]⟩ ∧
      ∃ fp ps1, identity handlerB = Except.ok fp ∧
        Leave ⟨[handlerA, handlerB, handlerA]⟩ handlerB none = Except.ok ps1 ∧
        (∀ inv ∈ (dispatch (fun _ _ _ => Outcome.returns) ps1 (goString "hi")).launched,
          identity inv.f ≠ Except.ok fp) ∧
        (dispatch (fun _ _ _ => Outcome.returns) ps1 (goString "hi")).launched
          = (dispatch (fun _ _ _ => Outcome.returns) ⟨[handlerA, handlerB, handlerA]⟩
              (goString "hi")).launched.filter
              (fun inv => decide (identity inv.f ≠ Except.ok fp)) :=
  ⟨by decide,
    dispatch_after_Leave (fun _ _ _ => Outcome.returns) ⟨[handlerA, handlerB, handlerA]⟩
      handlerB none (goString "hi") (by decide) (by decide)⟩

/-! ## The registry invariant -/

/-- Every registry the operations can build is a registry of handlers: `New` and `Close`
give the empty one, `Sub` appends only what it accepts, `Leave` only removes. -/
theorem wellFormed_invariant (ps : PubSub) (f : Iface) (caller : Option Nat)
    (hwf : WellFormed ps) :
    WellFormed New ∧ WellFormed (Close ps) ∧
      (∀ ps1 e, Sub ps f = Except.ok (ps1, e) → WellFormed ps1) ∧
      (∀ ps1, Leave ps f caller = Except.ok ps1 → WellFormed ps1) := by
  refine ⟨fun e he => by simp [New] at he, fun e he => by simp [Close] at he, ?_, ?_⟩
  · intro ps1 e hs
    by_cases hf : IsHandler f
    · rw [Sub_of_isHandler ps f hf] at hs
      have h1 : ps1 = ⟨ps.f ++ [f]⟩ := (Prod.mk.inj (Except.ok.inj hs)).1.symm
      subst h1
      intro g hg
      rcases List.mem_append.mp hg with hg | hg
      · exact hwf g hg
      · rw [List.mem_singleton.mp hg]; exact hf
    · obtain ⟨e1, he1⟩ := Sub_of_not_isHandler ps f hf
      rw [he1] at hs
      have h1 : ps1 = ps := (Prod.mk.inj (Except.ok.inj hs)).1.symm
      subst h1
      exact hwf
  · intro ps1 hl
    have hcore : ∀ fp, Leave ps f caller = Except.ok ps1 →
        (∀ fp1, Leave ps f caller = (do
          let (result, last) ← leaveLoop ps.f fp1 ps.f 0 [] 0
          let tail ← slice ps.f last ps.f.length
          pure (⟨result ++ tail⟩ : PubSub)) → fp1 = fp → WellFormed ps1) := by
      intro fp h fp1 heq _
      rw [heq, leave_core fp1 ps.f (kind_of_isHandler hwf)] at h
      have h1 := (Except.ok.inj h).symm
      subst h1
      exact fun e he => hwf e (List.mem_filter.mp he).1
    cases f with
    | nil =>
      cases caller with
      | none => exact hcore 0 hl 0 rfl rfl
      | some c => exact hcore c hl c rfl rfl
    | val t d =>
      cases hp : (ValueOf (Iface.val t d)).Pointer with
      | error p =>
        have : Leave ps (Iface.val t d) caller = Except.error p := by
          unfold Leave
          simp only [hp, bind, Except.bind]
        rw [this] at hl
        cases hl
      | ok fp =>
        refine hcore fp hl fp ?_ rfl
        unfold Leave
        simp only [hp, bind, Except.bind]

/-! ## End to end -/

/-- C9: on a fresh dispatcher, for a handler `A` taking a string and a handler `B` taking
an int (two functions, so two entry points): `Sub(A)` and `Sub(B)` succeed; the dispatch of
"hi" invokes only `A`, with "hi"; the dispatch of 5 invokes only `B`, with 5; after
`Leave(A)` the dispatch of "again" invokes no handler and the registry is `B` alone. -/
theorem scenario_two_handlers (call : Nat → Value → List Value → Outcome)
    (entryA envA entryB envB : Nat) (outsA outsB : List GoType) (hAB : entryA ≠ entryB) :
    ∃ ps1 ps2 ps3 : PubSub,
      Sub New (stringHandler outsA entryA envA) = Except.ok (ps1, none) ∧
      Sub ps1 (intHandler outsB entryB envB) = Except.ok (ps2, none) ∧
      (dispatch call ps2 (Pub (goString "hi"))).launched
        = [⟨stringHandler outsA entryA envA, ValueOf (stringHandler outsA entryA envA),
            [goString "hi"]⟩] ∧
      (dispatch call ps2 (Pub (goString "hi"))).crash = none ∧
      (dispatch call ps2 (Pub (goInt 5))).launched
        = [⟨intHandler outsB entryB envB, ValueOf (intHandler outsB entryB envB),
            [goInt 5]⟩] ∧
      (dispatch call ps2 (Pub (goInt 5))).crash = none ∧
      Leave ps2 (stringHandler outsA entryA envA) none = Except.ok ps3 ∧
      dispatch call ps3 (Pub (goString "again")) = ⟨[], [], none⟩ ∧
      ps3.f = [intHandler outsB entryB envB] := by
  have hwf : WellFormed
      ⟨[stringHandler outsA entryA envA, intHandler outsB entryB envB]⟩ := by
    intro e he
    simp only [List.mem_cons, List.mem_singleton, List.not_mem_nil, or_false] at he
    rcases he with rfl | rfl
    · exact ⟨rfl, rfl⟩
    · exact ⟨rfl, rfl⟩
  have hl := leave_filter _ (stringHandler outsA entryA envA) none entryA hwf rfl rfl
  have hBA : ¬ entryB = entryA := fun h => hAB h.symm
  have hfil : List.filter (fun e => decide (identity e ≠ Except.ok entryA))
      [stringHandler outsA entryA envA, intHandler outsB entryB envB]
      = [intHandler outsB entryB envB] := by
    simp [List.filter_cons, identity, ValueOf, Value.Pointer, GoType.kind, Data.word, hBA,
      stringHandler, intHandler]
  rw [hfil] at hl
  exact ⟨_, _, _, rfl, rfl, rfl, rfl, rfl, rfl, hl, rfl, rfl⟩

theorem scenario_two_handlers_witness :
    (4096 : Nat) ≠ 8192 ∧
      ∃ ps1 ps2 ps3 : PubSub,
        Sub New handlerA = Except.ok (ps1, none) ∧
        Sub ps1 handlerB = Except.ok (ps2, none) ∧
        (dispatch (fun _ _ _ => Outcome.returns) ps2 (Pub (goString "hi"))).launched
          = [⟨handlerA, handlerA, [goString "hi"]⟩] ∧
        (dispatch (fun _ _ _ => Outcome.returns) ps2 (Pub (goString "hi"))).crash = none ∧
        (dispatch (fun _ _ _ => Outcome.returns) ps2 (Pub (goInt 5))).launched
          = [⟨handlerB, handlerB, [goInt 5]⟩] ∧
        (dispatch (fun _ _ _ => Outcome.returns) ps2 (Pub (goInt 5))).crash = none ∧
        Leave ps2 handlerA none = Except.ok ps3 ∧
        dispatch (fun _ _ _ => Outcome.returns) ps3 (Pub (goString "again")) = ⟨[], [], none⟩ ∧
        ps3.f = [handlerB] :=
  ⟨by decide,
    scenario_two_handlers (fun _ _ _ => Outcome.returns) 4096 0 8192 0 [] [] (by decide)⟩

end Chat
